import Mathlib

/-!
Verification of the watchtower repository's core subsystems, shallowly
embedded in Lean 4 from the Rust sources:

* `src/src/cli.rs` — the subprocess stream-JSON decoder
  (`parse_stream_json_line`), the stdout reader loop, and the CLI worker
  thread (`spawn_cli_worker`) handling `StartQuery` / `Cancel`.
* `src/src/history.rs` — the branching operation history
  (`OperationHistory` with `push` / `undo` / `redo`).
* `src/src/mcp_server.rs` — the command/response bridge
  (`send_command_and_wait` polling loop).
* `src/src/main.rs` — the `handle_undo` / `handle_redo` result strings and
  `respond_success`.

JSON values are modelled structurally; numbers are modelled as rationals,
which is faithful here because the decoder only moves numeric values around
(via serde's `as_f64` / `as_u64`) and performs no floating-point arithmetic.
-/

/-- A parsed JSON value, as produced by `serde_json::from_str` in the stdout
reader loop of `spawn_cli_worker`. Numbers are carried exactly as rationals. -/
inductive Json where
  | null : Json
  | bool (b : Bool) : Json
  | num (q : ℚ) : Json
  | str (s : String) : Json
  | arr (items : List Json) : Json
  | obj (fields : List (String × Json)) : Json

/-- `serde_json::Value::get(key)`: field lookup on an object, `None` on any
other shape. Objects built in this file have distinct keys, matching the
map representation serde uses. -/
def Json.get (v : Json) (key : String) : Option Json :=
  match v with
  | .obj fields => (fields.find? (fun f => f.1 = key)).map (·.2)
  | _ => none

/-- `serde_json::Value::as_str`. -/
def Json.as_str (v : Json) : Option String :=
  match v with
  | .str s => some s
  | _ => none

/-- `serde_json::Value::as_f64`: any JSON number converts. -/
def Json.as_f64 (v : Json) : Option ℚ :=
  match v with
  | .num q => some q
  | _ => none

/-- `serde_json::Value::as_u64`: succeeds exactly on non-negative integers
that fit in 64 bits. -/
def Json.as_u64 (v : Json) : Option Nat :=
  match v with
  | .num q => if q.den = 1 ∧ 0 ≤ q.num ∧ q.num < 2 ^ 64 then some q.num.toNat else none
  | _ => none

/-- `value.get(k).and_then(|v| v.as_str()).unwrap_or("")`, the idiom used
for every string-typed dispatch field in `parse_stream_json_line`. -/
def Json.str_field (v : Json) (key : String) : String :=
  ((v.get key).bind Json.as_str).getD ""

/-- The decoder's carried state: the two `&mut String` parameters of
`parse_stream_json_line` (the stdout reader thread's locals). -/
structure DecoderState where
  session_id : String
  current_tool_id : String
deriving DecidableEq, Repr

/-- `CliEvent` from `src/src/cli.rs`. `total_cost_usd` is `Option<f64>`,
modelled as an optional rational; `num_turns` is `u32`, modelled as a
natural number below `2 ^ 32`. -/
inductive CliEvent where
  | SessionStarted (session_id : String)
  | TextDelta (text : String)
  | ThinkingDelta (text : String)
  | ToolUseStarted (tool_name : String) (tool_id : String)
  | ToolUseInputDelta (tool_id : String) (partial_json : String)
  | ToolUseFinished (tool_id : String)
  | TurnComplete (session_id : String)
  | Complete (session_id : String) (total_cost_usd : Option ℚ) (num_turns : Nat)
  | Error (message : String)
deriving DecidableEq, Repr

/-- The `"stream_event"` arm of `parse_stream_json_line`: dispatch on the
inner `event.type`. -/
def parse_stream_event (event : Json) (s : DecoderState) :
    DecoderState × List CliEvent :=
  let event_type := event.str_field "type"
  if event_type = "content_block_start" then
    match event.get "content_block" with
    | some content_block =>
      let block_type := content_block.str_field "type"
      if block_type = "tool_use" then
        let tool_name := ((content_block.get "name").bind Json.as_str).getD "unknown"
        let tool_id := ((content_block.get "id").bind Json.as_str).getD ""
        ({ s with current_tool_id := tool_id },
          [CliEvent.ToolUseStarted tool_name tool_id])
      else (s, [])
    | none => (s, [])
  else if event_type = "content_block_delta" then
    match event.get "delta" with
    | some delta =>
      let delta_type := delta.str_field "type"
      if delta_type = "text_delta" then
        match (delta.get "text").bind Json.as_str with
        | some text => (s, [CliEvent.TextDelta text])
        | none => (s, [])
      else if delta_type = "input_json_delta" then
        match (delta.get "partial_json").bind Json.as_str with
        | some pj => (s, [CliEvent.ToolUseInputDelta s.current_tool_id pj])
        | none => (s, [])
      else if delta_type = "thinking_delta" then
        match (delta.get "thinking").bind Json.as_str with
        | some text => (s, [CliEvent.ThinkingDelta text])
        | none => (s, [])
      else (s, [])
    | none => (s, [])
  else if event_type = "content_block_stop" then
    ({ s with current_tool_id := "" },
      [CliEvent.ToolUseFinished s.current_tool_id])
  else if event_type = "message_stop" then
    (s, [CliEvent.TurnComplete s.session_id])
  else (s, [])

/-- `parse_stream_json_line` from `src/src/cli.rs`: one parsed JSON value in,
the updated carried state and the emitted events out. -/
def parse_stream_json_line (value : Json) (s : DecoderState) :
    DecoderState × List CliEvent :=
  let message_type := value.str_field "type"
  if message_type = "system" then
    match (value.get "session_id").bind Json.as_str with
    | some sid =>
      ({ s with session_id := sid }, [CliEvent.SessionStarted sid])
    | none => (s, [])
  else if message_type = "stream_event" then
    match value.get "event" with
    | some event => parse_stream_event event s
    | none => (s, [])
  else if message_type = "result" then
    let total_cost := (value.get "total_cost_usd").bind Json.as_f64
    let num_turns := (((value.get "num_turns").bind Json.as_u64).getD 0) % 2 ^ 32
    (s, [CliEvent.Complete s.session_id total_cost num_turns])
  else (s, [])

/-- One iteration of the stdout reader loop in `spawn_cli_worker`: `none`
stands for a line that was blank or failed `serde_json::from_str` (the loop
`continue`s — no events, carried state untouched); `some value` is handed
to `parse_stream_json_line`. -/
def process_line (line : Option Json) (s : DecoderState) :
    DecoderState × List CliEvent :=
  match line with
  | none => (s, [])
  | some value => parse_stream_json_line value s

/-- The stdout reader loop over a whole list of lines, concatenating the
emitted events in source order. -/
def process_lines (lines : List (Option Json)) (s : DecoderState) :
    DecoderState × List CliEvent :=
  match lines with
  | [] => (s, [])
  | line :: rest =>
    let (s1, evs1) := process_line line s
    let (s2, evs2) := process_lines rest s1
    (s2, evs1 ++ evs2)

/-! ## Operation history (`src/src/history.rs`) -/

/-- `Operation` from `src/src/history.rs`. `f64` payloads are modelled as
rationals (the history engine only stores and returns them). -/
inductive Operation where
  | CreateGame (definition : String)
  | AddEntity (name : String) (entity_json : String)
  | RemoveEntity (name : String) (entity_json : String)
  | UpdateScript (entity_name : String) (old_script : Option String) (new_script : String)
  | SetGameState (key : String) (old_value : Option ℚ) (new_value : ℚ)
  | ResetGame
deriving DecidableEq, Repr

/-- `Operation::description`. The rendering of the `f64` in the
`SetGameState` arm uses Lean's rational printer in place of Rust's float
printer; no theorem below depends on that rendering. -/
def Operation.description (op : Operation) : String :=
  match op with
  | .CreateGame _ => "Create game"
  | .AddEntity name _ => "Add entity '" ++ name ++ "'"
  | .RemoveEntity name _ => "Remove entity '" ++ name ++ "'"
  | .UpdateScript entity_name _ _ => "Update script on '" ++ entity_name ++ "'"
  | .SetGameState key _ new_value => "Set state '" ++ key ++ "' = " ++ toString new_value
  | .ResetGame => "Reset game"

/-- `HistoryNode`: `timestamp` (a `std::time::Instant`) is modelled as an
abstract natural number supplied to `push` in place of `Instant::now()`. -/
structure HistoryNode where
  operation : Operation
  timestamp : Nat
  parent : Option Nat
  children : List Nat
deriving DecidableEq, Repr

/-- `OperationHistory` (the `#[derive(Default)]` state). -/
structure OperationHistory where
  nodes : List HistoryNode
  current : Option Nat
  redo_stack : List Nat
deriving DecidableEq, Repr

/-- The `Default` instance: empty nodes, unset cursor, empty redo stack. -/
def OperationHistory.empty : OperationHistory :=
  { nodes := [], current := none, redo_stack := [] }

/-- `self.nodes[parent_index].children.push(index)`: append `index` to the
children of the node at position `p`. -/
def append_child (nodes : List HistoryNode) (p : Nat) (index : Nat) :
    List HistoryNode :=
  match nodes[p]? with
  | some node => nodes.set p { node with children := node.children ++ [index] }
  | none => nodes

/-- `OperationHistory::push`, with `now` standing for `Instant::now()`. -/
def OperationHistory.push (h : OperationHistory) (operation : Operation)
    (now : Nat) : OperationHistory :=
  let parent := h.current
  let index := h.nodes.length
  let node : HistoryNode :=
    { operation := operation, timestamp := now, parent := parent, children := [] }
  let nodes := h.nodes ++ [node]
  let nodes :=
    match parent with
    | some parent_index => append_child nodes parent_index index
    | none => nodes
  { nodes := nodes, current := some index, redo_stack := [] }

/-- `OperationHistory::undo`: returns the updated history and the operation
(if any). An out-of-range cursor would panic in Rust; it never occurs in
reachable states, and the theorems below carry the in-range hypothesis. -/
def OperationHistory.undo (h : OperationHistory) :
    OperationHistory × Option Operation :=
  match h.current with
  | none => (h, none)
  | some current =>
    match h.nodes[current]? with
    | none => (h, none)
    | some node =>
      ({ h with current := node.parent, redo_stack := h.redo_stack ++ [current] },
        some node.operation)

/-- `OperationHistory::redo`: pops the last undone index off the redo stack. -/
def OperationHistory.redo (h : OperationHistory) :
    OperationHistory × Option Operation :=
  match h.redo_stack.getLast? with
  | none => (h, none)
  | some redo_index =>
    match h.nodes[redo_index]? with
    | none => (h, none)
    | some node =>
      ({ h with current := some redo_index, redo_stack := h.redo_stack.dropLast },
        some node.operation)

/-- `Summoner::handle_undo` (`src/src/main.rs`), restricted to its returned
string and its effect on the history: the world mutations it performs on
the external scene are out of scope. `undo() == None` yields the literal
"Nothing to undo"; otherwise the handler applies the inverse effect and
returns "Undone: " followed by the operation's description. -/
def handle_undo (h : OperationHistory) : OperationHistory × String :=
  match h.undo with
  | (h1, none) => (h1, "Nothing to undo")
  | (h1, some op) => (h1, "Undone: " ++ op.description)

/-- `Summoner::handle_redo` (`src/src/main.rs`), same restriction. -/
def handle_redo (h : OperationHistory) : OperationHistory × String :=
  match h.redo with
  | (h1, none) => (h1, "Nothing to redo")
  | (h1, some op) => (h1, "Redone: " ++ op.description)

/-- Fold a list of pushes (operation paired with its timestamp). -/
def push_all (h : OperationHistory) (ops : List (Operation × Nat)) :
    OperationHistory :=
  match ops with
  | [] => h
  | (op, now) :: rest => push_all (h.push op now) rest

/-- Apply `undo` `n` times, discarding the returned operations. -/
def undo_iter (h : OperationHistory) (n : Nat) : OperationHistory :=
  match n with
  | 0 => h
  | n + 1 => undo_iter (h.undo).1 n

/-! ## CLI worker (`spawn_cli_worker` in `src/src/cli.rs`)

The worker thread owns `current_child : Option<Child>` and
`current_session_id : String`; each successfully spawned process gets a
fresh stdout reader thread whose locals (`session_id`, `current_tool_id`)
are the `DecoderState` above. Killing and waiting on the child is modelled
by the `child_running` flag transitions. -/

structure CliWorkerState where
  /-- `current_child.is_some()`. -/
  child_running : Bool
  /-- The worker-local `current_session_id`. -/
  current_session_id : String
  /-- The stdout reader thread's locals for the current process. -/
  reader : DecoderState
deriving DecidableEq, Repr

/-- Worker state at thread start: no child, empty session id; the reader
field is inert until a process is spawned. -/
def CliWorkerState.initial : CliWorkerState :=
  { child_running := false, current_session_id := "", reader := ⟨"", ""⟩ }

/-- The `StartQuery` arm when `cmd.spawn()` succeeds: any previous child is
killed and waited on, the new child is installed with a fresh reader whose
locals start empty, and the worker sets `current_session_id = String::new()`.
No event is emitted. -/
def worker_start_query_ok (_s : CliWorkerState) :
    CliWorkerState × List CliEvent :=
  ({ child_running := true, current_session_id := "", reader := ⟨"", ""⟩ }, [])

/-- The `StartQuery` arm when `cmd.spawn()` fails with message `error`: the
previous child was already taken and killed, and a single `Error` event is
sent. `current_session_id` is not touched on this path. -/
def worker_start_query_err (s : CliWorkerState) (error : String) :
    CliWorkerState × List CliEvent :=
  ({ s with child_running := false },
    [CliEvent.Error ("Failed to spawn claude CLI: " ++ error)])

/-- The stdout reader thread consuming one line while the worker is
otherwise idle: only the reader locals change; the worker's
`current_session_id` is a different variable and is never written by the
reader. -/
def worker_stream_line (s : CliWorkerState) (line : Option Json) :
    CliWorkerState × List CliEvent :=
  let (reader, events) := process_line line s.reader
  ({ s with reader := reader }, events)

/-- The `Cancel` arm: `if let Some(child) = current_child.take()` kill and
wait, then unconditionally send one `TurnComplete` carrying
`current_session_id.clone()`. -/
def worker_cancel (s : CliWorkerState) : CliWorkerState × List CliEvent :=
  ({ s with child_running := false },
    [CliEvent.TurnComplete s.current_session_id])

/-! ## Command/response bridge (`src/src/mcp_server.rs`) -/

/-- `McpResponse`. -/
inductive McpResponse where
  | Success (message : String)
  | UserInput (input : String)
deriving DecidableEq, Repr

/-- The string a resolved response turns into inside
`send_command_and_wait`'s `match resp`. -/
def McpResponse.to_message (r : McpResponse) : String :=
  match r with
  | .Success message => message
  | .UserInput input => input

/-- The polling loop of `send_command_and_wait`. The consumer thread runs
concurrently and may write the single-slot register while the loop sleeps:
`writes i` is the value (if any) the consumer stores during the `i`-th
sleep, overwriting whatever the slot held (last-write-wins, as in
`respond_success`). Each iteration then locks the slot; if occupied it
`take`s the value (emptying the slot) and returns its message. The result
records the slot's final contents, the number of polls performed, and the
returned string. -/
def await_response (slot : Option McpResponse) (writes : Nat → Option McpResponse)
    (i : Nat) (attempts_left : Nat) (polls_done : Nat) :
    Option McpResponse × Nat × String :=
  match attempts_left with
  | 0 => (slot, polls_done, "Timeout waiting for response")
  | n + 1 =>
    let slot1 :=
      match writes i with
      | some v => some v
      | none => slot
    match slot1 with
    | some resp => (none, polls_done + 1, resp.to_message)
    | none => await_response none writes (i + 1) n (polls_done + 1)

/-- `max_attempts` as written at the call site: `for _ in 0..200`. -/
def max_attempts : Nat := 200

/-- `SummonerMcpServer::send_command_and_wait`, over an abstract command
type: pushes the command onto the shared FIFO, then polls the response
slot up to `max_attempts` times. -/
def send_command_and_wait {Cmd : Type} (command_queue : List Cmd) (cmd : Cmd)
    (slot : Option McpResponse) (writes : Nat → Option McpResponse) :
    List Cmd × (Option McpResponse × Nat × String) :=
  (command_queue ++ [cmd], await_response slot writes 0 max_attempts 0)

/-- `Summoner::respond_success` (`src/src/main.rs`): overwrite the response
slot with `Success(message)`. -/
def respond_success (_slot : Option McpResponse) (message : String) :
    Option McpResponse :=
  some (McpResponse.Success message)

/-! ## Concrete protocol lines and auxiliary predicates -/

/-- The line `\x7b"type":"system","session_id":"s1"\x7d`. -/
def line_system_s1 : Json :=
  Json.obj [("type", Json.str "system"), ("session_id", Json.str "s1")]

/-- The line
`\x7b"type":"stream_event","event":\x7b"type":"content_block_delta","delta":\x7b"type":"text_delta","text":"hi"\x7d\x7d\x7d`. -/
def line_text_hi : Json :=
  Json.obj [("type", Json.str "stream_event"),
    ("event", Json.obj [("type", Json.str "content_block_delta"),
      ("delta", Json.obj [("type", Json.str "text_delta"),
        ("text", Json.str "hi")])])]

/-- The line `\x7b"type":"result","total_cost_usd":0.02,"num_turns":1\x7d`. -/
def line_result_002_1 : Json :=
  Json.obj [("type", Json.str "result"),
    ("total_cost_usd", Json.num (2 / 100)),
    ("num_turns", Json.num 1)]

/-- A stream_event line whose inner event is a bare `content_block_stop`
(e.g. the stop of an ordinary text content block). -/
def line_block_stop : Json :=
  Json.obj [("type", Json.str "stream_event"),
    ("event", Json.obj [("type", Json.str "content_block_stop")])]

/-- Recognize `TurnComplete` events, for counting emissions. -/
def CliEvent.is_turn_complete (e : CliEvent) : Bool :=
  match e with
  | .TurnComplete _ => true
  | _ => false

/-- A history whose allocated nodes form one linear chain of length `n`
(node `i`'s parent is `i - 1`, node `0` is the root) with the cursor on the
last node — exactly the shape `n` pushes from the empty history produce. -/
def Linear (h : OperationHistory) (n : Nat) : Prop :=
  h.nodes.length = n ∧
  (∀ i node, h.nodes[i]? = some node →
    node.parent = (if i = 0 then none else some (i - 1))) ∧
  h.current = (if n = 0 then none else some (n - 1))

/-! ## Theorems -/

/-- C2: starting from empty carried state, decoding the system line for
session "s1", then the text_delta line for "hi", then the result line with
total_cost_usd 0.02 and num_turns 1, produces exactly
[SessionStarted "s1", TextDelta "hi", Complete "s1" 0.02 1] in that order
(and leaves "s1" as the carried session id). -/
theorem decode_three_line_scenario :
    process_lines [some line_system_s1, some line_text_hi, some line_result_002_1]
        ⟨"", ""⟩ =
      (⟨"s1", ""⟩, [CliEvent.SessionStarted "s1", CliEvent.TextDelta "hi",
        CliEvent.Complete "s1" (some (2 / 100)) 1]) := rfl

/-- C5: a JSON line whose top-level `type` is absent, not a string, or not
one of "system" / "stream_event" / "result" emits no events and leaves the
carried state unchanged; so does a line that fails to parse as JSON
(modelled as `none` in the reader loop). -/
theorem unrecognized_line_is_inert :
    (∀ (value : Json) (s : DecoderState),
      value.str_field "type" ≠ "system" →
      value.str_field "type" ≠ "stream_event" →
      value.str_field "type" ≠ "result" →
      parse_stream_json_line value s = (s, [])) ∧
    (∀ s : DecoderState, process_line none s = (s, [])) := by
  refine ⟨fun value s h1 h2 h3 => ?_, fun s => rfl⟩
  simp only [parse_stream_json_line]
  rw [if_neg h1, if_neg h2, if_neg h3]

/-- Witness for C5: the concrete line with type "assistant" (not one of the
recognized values) and a failed-parse line are both inert. -/
theorem unrecognized_line_is_inert_witness :
    parse_stream_json_line (Json.obj [("type", Json.str "assistant")])
        ⟨"sess", "tool"⟩ = (⟨"sess", "tool"⟩, []) ∧
    process_line none ⟨"sess", "tool"⟩ = (⟨"sess", "tool"⟩, []) :=
  ⟨unrecognized_line_is_inert.1 _ _ (by decide) (by decide) (by decide),
    unrecognized_line_is_inert.2 _⟩

/-- C9: for every decoder state, a stream_event line whose inner event type
is content_block_stop emits ToolUseFinished carrying the carried
current_tool_id and clears current_tool_id — also when no tool-use block is
open, in which case the emitted id is the empty string. -/
theorem content_block_stop_always_finishes :
    ∀ (value event : Json) (s : DecoderState),
      value.str_field "type" = "stream_event" →
      value.get "event" = some event →
      event.str_field "type" = "content_block_stop" →
      parse_stream_json_line value s =
        ({ s with current_tool_id := "" },
          [CliEvent.ToolUseFinished s.current_tool_id]) := by
  intro value event s h1 h2 h3
  simp [parse_stream_json_line, parse_stream_event, h1, h2, h3]

/-- Witness for C9: the stop of an ordinary content block while no tool use
is open yields ToolUseFinished with the empty id. -/
theorem content_block_stop_always_finishes_witness :
    parse_stream_json_line line_block_stop ⟨"s1", ""⟩ =
      (⟨"s1", ""⟩, [CliEvent.ToolUseFinished ""]) :=
  content_block_stop_always_finishes line_block_stop
    (Json.obj [("type", Json.str "content_block_stop")]) ⟨"s1", ""⟩
    (by decide) rfl (by decide)

/-- C10: the Cancel arm of the worker loop sends exactly one event, a
TurnComplete, and does so for every worker state — the kill/wait is guarded
by `current_child.take()`, but the TurnComplete send is unconditional, so
an idle worker (no running child) also emits it. -/
theorem cancel_always_emits_one_turn_complete :
    ∀ s : CliWorkerState,
      (worker_cancel s).2.countP CliEvent.is_turn_complete = 1 ∧
      (worker_cancel s).2.length = 1 ∧
      (worker_cancel s).1.child_running = false := by
  intro s
  exact ⟨rfl, rfl, rfl⟩

/-- C1: evaluation of the cancel path at the failing input. After a
successful spawn and the stream line `\x7b"type":"system","session_id":"s1"\x7d`,
the reader's last known session id is "s1", yet Cancel emits
`TurnComplete` with the empty session id: the worker's
`current_session_id` is reset to `String::new()` on spawn and never
assigned from the stream (the reader thread updates its own local
`session_id`), so the emitted session id differs from the stream's. -/
theorem cancel_drops_stream_session_id :
    (worker_stream_line (worker_start_query_ok CliWorkerState.initial).1
        (some line_system_s1)).1.reader.session_id = "s1" ∧
    (worker_cancel (worker_stream_line (worker_start_query_ok CliWorkerState.initial).1
        (some line_system_s1)).1).2 = [CliEvent.TurnComplete ""] ∧
    "" ≠ "s1" := by
  refine ⟨rfl, rfl, by decide⟩

/-! ### History helper lemmas -/

lemma push_current (h : OperationHistory) (op : Operation) (now : Nat) :
    (h.push op now).current = some h.nodes.length := rfl

lemma push_redo_stack (h : OperationHistory) (op : Operation) (now : Nat) :
    (h.push op now).redo_stack = [] := rfl

lemma redo_of_empty_stack (h : OperationHistory) (hr : h.redo_stack = []) :
    h.redo = (h, none) := by
  simp [OperationHistory.redo, hr]

lemma push_nodes_length (h : OperationHistory) (op : Operation) (now : Nat) :
    (h.push op now).nodes.length = h.nodes.length + 1 := by
  unfold OperationHistory.push append_child
  dsimp only
  split
  · split <;> simp
  · simp

lemma push_nodes_new_entry (h : OperationHistory) (op : Operation) (now : Nat)
    (hwf : ∀ p, h.current = some p → p < h.nodes.length) :
    (h.push op now).nodes[h.nodes.length]? =
      some ⟨op, now, h.current, []⟩ := by
  unfold OperationHistory.push append_child
  dsimp only
  cases hc : h.current with
  | none => simp [List.getElem?_concat_length]
  | some p =>
    have hp := hwf p hc
    have happ : (h.nodes ++ [(⟨op, now, some p, []⟩ : HistoryNode)])[p]? = h.nodes[p]? := by
      rw [List.getElem?_append]
      simp [hp]
    cases hnp : h.nodes[p]? with
    | none => simp [List.getElem?_eq_getElem hp] at hnp
    | some nodeP =>
      simp only [happ, hnp]
      rw [List.getElem?_set_ne (Nat.ne_of_lt hp), List.getElem?_concat_length]

lemma push_appends_child (h : OperationHistory) (op : Operation) (now : Nat) (p : Nat)
    (hc : h.current = some p) (hp : p < h.nodes.length) :
    ∃ node, h.nodes[p]? = some node ∧
      (h.push op now).nodes[p]? =
        some { node with children := node.children ++ [h.nodes.length] } := by
  have hnp : h.nodes[p]? = some h.nodes[p] := List.getElem?_eq_getElem hp
  refine ⟨h.nodes[p], hnp, ?_⟩
  unfold OperationHistory.push append_child
  dsimp only
  rw [hc]
  have happ : (h.nodes ++ [(⟨op, now, some p, []⟩ : HistoryNode)])[p]? = h.nodes[p]? := by
    rw [List.getElem?_append]
    simp [hp]
  simp only [happ, hnp]
  rw [List.getElem?_set_self]
  simp
  omega

lemma push_preserves_entry (h : OperationHistory) (op : Operation) (now : Nat) (i : Nat)
    (hi : i < h.nodes.length) :
    ∃ node nodeAfter, h.nodes[i]? = some node ∧
      (h.push op now).nodes[i]? = some nodeAfter ∧
      nodeAfter.parent = node.parent ∧ nodeAfter.operation = node.operation := by
  have hni : h.nodes[i]? = some h.nodes[i] := List.getElem?_eq_getElem hi
  unfold OperationHistory.push append_child
  dsimp only
  cases hc : h.current with
  | none =>
    refine ⟨h.nodes[i], h.nodes[i], hni, ?_, rfl, rfl⟩
    rw [List.getElem?_append]
    simp [hi, hni]
  | some p =>
    have happi : ∀ node0 : HistoryNode, (h.nodes ++ [node0])[i]? = h.nodes[i]? := by
      intro node0
      rw [List.getElem?_append]
      simp [hi]
    cases hx : (h.nodes ++ [(⟨op, now, some p, []⟩ : HistoryNode)])[p]? with
    | none =>
      refine ⟨h.nodes[i], h.nodes[i], hni, ?_, rfl, rfl⟩
      simp only [hx]
      rw [happi, hni]
    | some nodeP =>
      by_cases hpi : p = i
      · subst hpi
        have hnodeP : nodeP = h.nodes[p] := by
          rw [happi, hni] at hx
          exact (Option.some.inj hx).symm
        refine ⟨h.nodes[p], { h.nodes[p] with children := h.nodes[p].children ++ [h.nodes.length] },
          hni, ?_, rfl, rfl⟩
        simp only [hx]
        rw [hnodeP, List.getElem?_set_self]
        simp
        omega
      · refine ⟨h.nodes[i], h.nodes[i], hni, ?_, rfl, rfl⟩
        simp only [hx]
        rw [List.getElem?_set_ne hpi, happi, hni]

lemma undo_of_current_none (h : OperationHistory) (hc : h.current = none) :
    h.undo = (h, none) := by
  simp [OperationHistory.undo, hc]

lemma undo_step (h : OperationHistory) (p : Nat) (node : HistoryNode)
    (hc : h.current = some p) (hn : h.nodes[p]? = some node) :
    h.undo = ({ h with current := node.parent, redo_stack := h.redo_stack ++ [p] },
      some node.operation) := by
  simp [OperationHistory.undo, hc, hn]

lemma redo_step (h : OperationHistory) (p : Nat) (node : HistoryNode)
    (hl : h.redo_stack.getLast? = some p) (hn : h.nodes[p]? = some node) :
    h.redo = ({ h with current := some p, redo_stack := h.redo_stack.dropLast },
      some node.operation) := by
  simp [OperationHistory.redo, hl, hn]

/-- C3: from any history state (with an in-range cursor, as in every
reachable state) and any operation, `push` appends a new node whose parent
is the current cursor, records the new index in the parent's children when
a parent exists, moves the cursor to the new node, and clears the redo
stack — so a `redo` immediately after any `push` reports nothing-to-redo. -/
theorem push_allocates_and_clears_redo :
    ∀ (h : OperationHistory) (op : Operation) (now : Nat),
      (∀ p, h.current = some p → p < h.nodes.length) →
      (h.push op now).nodes.length = h.nodes.length + 1 ∧
      (h.push op now).nodes[h.nodes.length]? = some ⟨op, now, h.current, []⟩ ∧
      (h.push op now).current = some h.nodes.length ∧
      (h.push op now).redo_stack = [] ∧
      (h.push op now).redo = (h.push op now, none) ∧
      (∀ p, h.current = some p →
        ∃ node, h.nodes[p]? = some node ∧
          (h.push op now).nodes[p]? =
            some { node with children := node.children ++ [h.nodes.length] }) := by
  intro h op now hwf
  refine ⟨push_nodes_length h op now, push_nodes_new_entry h op now hwf,
    push_current h op now, push_redo_stack h op now,
    redo_of_empty_stack _ (push_redo_stack h op now), ?_⟩
  intro p hc
  exact push_appends_child h op now p hc (hwf p hc)

/-- Witness for C3: the state after one push of `ResetGame` (cursor on node
0), pushing `CreateGame "g"`. -/
theorem push_allocates_and_clears_redo_witness :
    (∀ p, (OperationHistory.empty.push Operation.ResetGame 0).current = some p →
      p < (OperationHistory.empty.push Operation.ResetGame 0).nodes.length) ∧
    (((OperationHistory.empty.push Operation.ResetGame 0).push
        (Operation.CreateGame "g") 1).nodes.length =
      (OperationHistory.empty.push Operation.ResetGame 0).nodes.length + 1 ∧
      ((OperationHistory.empty.push Operation.ResetGame 0).push
        (Operation.CreateGame "g") 1).nodes[
          (OperationHistory.empty.push Operation.ResetGame 0).nodes.length]? =
        some ⟨Operation.CreateGame "g", 1,
          (OperationHistory.empty.push Operation.ResetGame 0).current, []⟩ ∧
      ((OperationHistory.empty.push Operation.ResetGame 0).push
        (Operation.CreateGame "g") 1).current =
        some (OperationHistory.empty.push Operation.ResetGame 0).nodes.length ∧
      ((OperationHistory.empty.push Operation.ResetGame 0).push
        (Operation.CreateGame "g") 1).redo_stack = [] ∧
      ((OperationHistory.empty.push Operation.ResetGame 0).push
        (Operation.CreateGame "g") 1).redo =
        ((OperationHistory.empty.push Operation.ResetGame 0).push
          (Operation.CreateGame "g") 1, none) ∧
      (∀ p, (OperationHistory.empty.push Operation.ResetGame 0).current = some p →
        ∃ node, (OperationHistory.empty.push Operation.ResetGame 0).nodes[p]? = some node ∧
          ((OperationHistory.empty.push Operation.ResetGame 0).push
            (Operation.CreateGame "g") 1).nodes[p]? =
            some { node with children := node.children ++
              [(OperationHistory.empty.push Operation.ResetGame 0).nodes.length] })) :=
  ⟨fun p hp => by injection hp with he; subst he; decide,
    push_allocates_and_clears_redo (OperationHistory.empty.push Operation.ResetGame 0)
      (Operation.CreateGame "g") 1 (fun p hp => by injection hp with he; subst he; decide)⟩

/-- C4: for every history state whose cursor is set (and in range, as in
every reachable state), `undo` followed immediately by `redo` restores the
cursor to its pre-undo value and both calls return the same (present)
operation; in particular after `push A; push B` from the empty history,
`undo` returns B's operation with the cursor on A's node (index 0) and
`redo` returns B's operation again with the cursor back on B's node
(index 1). -/
theorem undo_then_redo_restores_cursor :
    (∀ (h : OperationHistory) (p : Nat), h.current = some p → p < h.nodes.length →
      ((h.undo).1.redo).1.current = h.current ∧
      ((h.undo).1.redo).2 = (h.undo).2 ∧
      ∃ op, (h.undo).2 = some op) ∧
    (∀ (opA opB : Operation) (t1 t2 : Nat),
      (((OperationHistory.empty.push opA t1).push opB t2).undo).2 = some opB ∧
      (((OperationHistory.empty.push opA t1).push opB t2).undo).1.current = some 0 ∧
      ((((OperationHistory.empty.push opA t1).push opB t2).undo).1.redo).2 = some opB ∧
      ((((OperationHistory.empty.push opA t1).push opB t2).undo).1.redo).1.current =
        some 1) := by
  constructor
  · intro h p hc hp
    have hn : h.nodes[p]? = some h.nodes[p] := List.getElem?_eq_getElem hp
    have hu := undo_step h p h.nodes[p] hc hn
    set node := h.nodes[p] with hnode
    have h1 : (h.undo).1 =
        { h with current := node.parent, redo_stack := h.redo_stack ++ [p] } := by
      rw [hu]
    have hlast : ((h.undo).1).redo_stack.getLast? = some p := by
      rw [h1]
      exact List.getLast?_concat _
    have hn1 : ((h.undo).1).nodes[p]? = some node := by
      rw [h1]
      exact hn
    have hr := redo_step (h.undo).1 p node hlast hn1
    refine ⟨?_, ?_, node.operation, ?_⟩
    · rw [hr, hc]
    · rw [hr, hu]
    · rw [hu]
  · intro opA opB t1 t2
    exact ⟨rfl, rfl, rfl, rfl⟩

/-- Witness for C4: the history `push ResetGame; push (CreateGame "g")`
with cursor on node 1. -/
theorem undo_then_redo_restores_cursor_witness :
    (((OperationHistory.empty.push Operation.ResetGame 0).push
        (Operation.CreateGame "g") 1).current = some 1 ∧
      1 < ((OperationHistory.empty.push Operation.ResetGame 0).push
        (Operation.CreateGame "g") 1).nodes.length) ∧
    (((((OperationHistory.empty.push Operation.ResetGame 0).push
        (Operation.CreateGame "g") 1).undo).1.redo).1.current =
      ((OperationHistory.empty.push Operation.ResetGame 0).push
        (Operation.CreateGame "g") 1).current ∧
      ((((OperationHistory.empty.push Operation.ResetGame 0).push
        (Operation.CreateGame "g") 1).undo).1.redo).2 =
        (((OperationHistory.empty.push Operation.ResetGame 0).push
          (Operation.CreateGame "g") 1).undo).2 ∧
      ∃ op, (((OperationHistory.empty.push Operation.ResetGame 0).push
        (Operation.CreateGame "g") 1).undo).2 = some op) :=
  ⟨⟨rfl, by decide⟩,
    undo_then_redo_restores_cursor.1
      ((OperationHistory.empty.push Operation.ResetGame 0).push
        (Operation.CreateGame "g") 1) 1 rfl (by decide)⟩

lemma linear_empty : Linear OperationHistory.empty 0 := by
  refine ⟨rfl, ?_, rfl⟩
  intro i node hin
  simp [OperationHistory.empty] at hin

lemma linear_push (h : OperationHistory) (n : Nat) (op : Operation) (now : Nat)
    (hl : Linear h n) : Linear (h.push op now) (n + 1) := by
  obtain ⟨hlen, hpar, hcur⟩ := hl
  subst hlen
  refine ⟨by rw [push_nodes_length], ?_, ?_⟩
  · intro i node hi
    have hwf : ∀ p, h.current = some p → p < h.nodes.length := by
      intro p hp
      rw [hcur] at hp
      rcases Nat.eq_zero_or_pos h.nodes.length with h0 | h0
      · simp [h0] at hp
      · have : h.nodes.length ≠ 0 := by omega
        simp [this] at hp
        omega
    rcases Nat.lt_or_ge i h.nodes.length with hilt | hige
    · obtain ⟨nd, ndAfter, hnd, hndAfter, hpp, _⟩ := push_preserves_entry h op now i hilt
      rw [hi] at hndAfter
      have : node = ndAfter := Option.some.inj hndAfter
      rw [this, hpp]
      exact hpar i nd hnd
    · have hibound : i < (h.push op now).nodes.length := by
        rcases List.getElem?_eq_some.mp hi with ⟨hb, _⟩
        exact hb
      rw [push_nodes_length] at hibound
      have hieq : i = h.nodes.length := by omega
      subst hieq
      have hnew := push_nodes_new_entry h op now hwf
      rw [hi] at hnew
      have hnode : node = ⟨op, now, h.current, []⟩ := Option.some.inj hnew
      rw [hnode, hcur]
  · rw [push_current]
    simp

lemma linear_push_all (ops : List (Operation × Nat)) :
    ∀ (h : OperationHistory) (n : Nat), Linear h n →
      Linear (push_all h ops) (n + ops.length) := by
  induction ops with
  | nil =>
    intro h n hl
    simpa [push_all] using hl
  | cons hd rest ih =>
    intro h n hl
    obtain ⟨op, now⟩ := hd
    have harith : n + (rest.length + 1) = (n + 1) + rest.length := by omega
    rw [List.length_cons, harith]
    exact ih (h.push op now) (n + 1) (linear_push h n op now hl)

lemma chain_undo :
    ∀ (k : Nat) (h : OperationHistory),
      (∀ i node, h.nodes[i]? = some node →
        node.parent = (if i = 0 then none else some (i - 1))) →
      h.current = some k → k < h.nodes.length →
      (undo_iter h (k + 1)).current = none := by
  intro k
  induction k with
  | zero =>
    intro h hpar hc hk
    have hn : h.nodes[0]? = some h.nodes[0] := List.getElem?_eq_getElem hk
    have hu := undo_step h 0 h.nodes[0] hc hn
    have hp0 := hpar 0 h.nodes[0] hn
    simp at hp0
    show (h.undo).1.current = none
    rw [hu]
    exact hp0
  | succ k ih =>
    intro h hpar hc hk
    have hn : h.nodes[k + 1]? = some h.nodes[k + 1] := List.getElem?_eq_getElem hk
    have hu := undo_step h (k + 1) h.nodes[k + 1] hc hn
    have hnodes : (h.undo).1.nodes = h.nodes := by rw [hu]
    have hpk := hpar (k + 1) h.nodes[k + 1] hn
    simp at hpk
    have hcur : (h.undo).1.current = some k := by
      rw [hu]
      exact hpk
    show (undo_iter (h.undo).1 (k + 1)).current = none
    apply ih (h.undo).1
    · intro i node hi
      rw [hnodes] at hi
      exact hpar i node hi
    · exact hcur
    · rw [hnodes]
      omega

/-- C7: for every N and every sequence of N pushes from the empty history,
N undos leave the cursor unset, and the (N+1)th undo reports
nothing-to-undo — surfaced by `handle_undo` as the string
"Nothing to undo". -/
theorem n_pushes_then_n_undos_empty :
    ∀ (ops : List (Operation × Nat)),
      (undo_iter (push_all OperationHistory.empty ops) ops.length).current = none ∧
      (undo_iter (push_all OperationHistory.empty ops) ops.length).undo =
        (undo_iter (push_all OperationHistory.empty ops) ops.length, none) ∧
      handle_undo (undo_iter (push_all OperationHistory.empty ops) ops.length) =
        (undo_iter (push_all OperationHistory.empty ops) ops.length,
          "Nothing to undo") := by
  intro ops
  have hlin : Linear (push_all OperationHistory.empty ops) (0 + ops.length) :=
    linear_push_all ops _ 0 linear_empty
  rw [Nat.zero_add] at hlin
  obtain ⟨hlen, hpar, hcur⟩ := hlin
  have hnone :
      (undo_iter (push_all OperationHistory.empty ops) ops.length).current = none := by
    cases hL : ops.length with
    | zero =>
      rw [hL] at hcur
      simpa [undo_iter] using hcur
    | succ m =>
      apply chain_undo m _ hpar
      · rw [hcur, hL]
        simp
      · rw [hlen, hL]
        omega
  refine ⟨hnone, undo_of_current_none _ hnone, ?_⟩
  simp [handle_undo, undo_of_current_none _ hnone]

lemma await_all_none :
    ∀ (n i polls : Nat) (writes : Nat → Option McpResponse),
      (∀ j, j < n → writes (i + j) = none) →
      await_response none writes i n polls =
        (none, polls + n, "Timeout waiting for response") := by
  intro n
  induction n with
  | zero => intro i polls writes _; rfl
  | succ n ih =>
    intro i polls writes hw
    have h0 : writes i = none := by simpa using hw 0 (by omega)
    have hrec := ih (i + 1) (polls + 1) writes (fun j hj => by
      have hj1 := hw (j + 1) (by omega)
      have harith : i + (j + 1) = i + 1 + j := by omega
      rw [harith] at hj1
      exact hj1)
    simp only [await_response, h0]
    rw [hrec, show polls + 1 + n = polls + (n + 1) from by omega]

lemma await_first_poll (slot : Option McpResponse) (writes : Nat → Option McpResponse)
    (i n polls : Nat) (r : McpResponse)
    (hobs : (match writes i with | some v => some v | none => slot) = some r) :
    await_response slot writes i (n + 1) polls = (none, polls + 1, r.to_message) := by
  simp only [await_response]
  rw [hobs]

/-- C6: a `send_command_and_wait` execution during which the response slot
is never occupied at any of its polls appends the command to the FIFO and
returns the timeout sentinel "Timeout waiting for response" after exactly
`max_attempts` (200) polls — never any other value, never more polls. -/
theorem await_times_out_after_max_attempts :
    ∀ {Cmd : Type} (queue : List Cmd) (cmd : Cmd)
      (writes : Nat → Option McpResponse),
      (∀ i, i < max_attempts → writes i = none) →
      send_command_and_wait queue cmd none writes =
        (queue ++ [cmd], (none, max_attempts, "Timeout waiting for response")) := by
  intro Cmd queue cmd writes hw
  have hawait := await_all_none max_attempts 0 0 writes (fun j hj => by
    simpa using hw j hj)
  rw [Nat.zero_add] at hawait
  rw [send_command_and_wait, hawait]

/-- Witness for C6: a consumer that never responds. -/
theorem await_times_out_after_max_attempts_witness :
    (∀ i, i < max_attempts → (fun _ => (none : Option McpResponse)) i = none) ∧
    send_command_and_wait ([] : List Nat) 0 none (fun _ => none) =
      ([0], (none, max_attempts, "Timeout waiting for response")) :=
  ⟨fun _ _ => rfl,
    await_times_out_after_max_attempts [] 0 (fun _ => none) (fun _ _ => rfl)⟩

/-- C8: if the response slot holds a value at the moment of the first poll
(for instance because the consumer responded right after `enqueue`, before
the wait began), `send_command_and_wait` returns that value's message after
exactly one poll and leaves the slot empty — it does not return the
timeout sentinel and never misses a response present before the first
poll. -/
theorem response_before_first_poll_observed :
    ∀ {Cmd : Type} (queue : List Cmd) (cmd : Cmd) (slot : Option McpResponse)
      (writes : Nat → Option McpResponse) (r : McpResponse),
      (match writes 0 with | some v => some v | none => slot) = some r →
      send_command_and_wait queue cmd slot writes =
        (queue ++ [cmd], (none, 1, r.to_message)) := by
  intro Cmd queue cmd slot writes r hobs
  have hm : max_attempts = 199 + 1 := rfl
  have hawait := await_first_poll slot writes 0 199 0 r hobs
  rw [Nat.zero_add] at hawait
  rw [send_command_and_wait, hm, hawait]

/-- Witness for C8: the slot is pre-filled by `respond_success` with
"Notification shown" and the consumer writes nothing further; the call
returns it on the first poll. -/
theorem response_before_first_poll_observed_witness :
    (match (fun _ => (none : Option McpResponse)) 0 with
      | some v => some v
      | none => respond_success none "Notification shown") =
        some (McpResponse.Success "Notification shown") ∧
    send_command_and_wait ([] : List Nat) 0
        (respond_success none "Notification shown") (fun _ => none) =
      ([0], (none, 1, "Notification shown")) :=
  ⟨rfl, response_before_first_poll_observed [] 0
    (respond_success none "Notification shown") (fun _ => none)
    (McpResponse.Success "Notification shown") rfl⟩
